import Mathlib

/-!
Verification of the multi-chain attestation synchronization engine of the
Astral API backend (TypeScript). The definitions below are a shallow
embedding of `src/backend/src/services/eas.service.ts` and
`src/backend/src/services/db.service.ts`: JavaScript numbers are modelled
as rationals, JSON values as an inductive type, fallible code as `Except`
or `Option`, and the mutable per-chain state (`lastProcessedTimestamps`,
the location-proof table) as explicit state records.
-/

namespace Astral

/-- A JSON value, as produced by JavaScript `JSON.parse`. Numbers are
modelled as rationals (every JSON numeral denotes a rational; the
double-rounding JavaScript applies is immaterial to the decimal literals
appearing in this development). An absent object property (JS `undefined`)
is modelled as `none` at use sites, not as a `Json` constructor. -/
inductive Json where
  | null : Json
  | bool (b : Bool) : Json
  | num (q : ℚ) : Json
  | str (s : String) : Json
  | arr (elems : List Json) : Json
  | obj (fields : List (String × Json)) : Json
deriving Repr

/-- JavaScript truthiness of a JSON value: `null`, `false`, `0` and the
empty string are falsy; arrays and objects are always truthy. -/
def Json.truthy : Json → Bool
  | .null => false
  | .bool b => b
  | .num q => decide (q ≠ 0)
  | .str s => decide (s ≠ "")
  | .arr _ => true
  | .obj _ => true

/-- Truthiness of a possibly-absent value (JS `undefined` is falsy). -/
def truthyOpt : Option Json → Bool
  | none => false
  | some j => j.truthy

/-- JavaScript property access `o[key]` restricted to data properties:
an object yields its named field (with JSON.parse duplicate-key semantics,
the last occurrence wins), every other value yields `undefined` (`none`).
Property access on `null` throws in JavaScript; call sites that can reach
a `null` receiver model the throw explicitly. -/
def Json.lookup (j : Json) (key : String) : Option Json :=
  match j with
  | .obj fields => (fields.reverse.find? (fun f => f.1 = key)).map (·.2)
  | _ => none

/-! ### Character-level helpers (JavaScript string primitives) -/

/-- Whitespace characters relevant to JSON and to `String.prototype.trim`
for the inputs of this development. -/
def isWsChar (c : Char) : Bool :=
  c = ' ' || c = '\t' || c = '\n' || c = '\r'

/-- Drop leading whitespace from a character list. -/
def skipWs : List Char → List Char
  | [] => []
  | c :: cs => if isWsChar c then skipWs cs else c :: cs

/-- Decimal digit test, via the code points 48–57. -/
def isDigitChar (c : Char) : Bool := decide (48 ≤ c.toNat ∧ c.toNat ≤ 57)

/-- Value of a decimal digit character. -/
def digitVal (c : Char) : ℕ := c.toNat - 48

/-- Longest digit prefix of a character list, with the remainder. -/
def spanDigits : List Char → List Char × List Char
  | [] => ([], [])
  | c :: cs =>
    if isDigitChar c then
      let (d, r) := spanDigits cs
      (c :: d, r)
    else ([], c :: cs)

def digitsToNat (ds : List Char) : ℕ := ds.foldl (fun n c => n * 10 + digitVal c) 0

/-- The rational `10 ^ n`, computed through `Nat.pow` so that it reduces
inside the kernel. -/
def pow10 (n : ℕ) : ℚ := ((10 ^ n : ℕ) : ℚ)

/-- The rational `10 ^ e` for an integer exponent, again kernel-reducible. -/
def qPow10 : ℤ → ℚ
  | .ofNat n => pow10 n
  | .negSucc n => 1 / pow10 (n + 1)

/-- Absolute value on ℚ by cases, mirroring `Math.abs` and kernel-reducible. -/
def qAbs (q : ℚ) : ℚ := if q < 0 then -q else q

/-- Drop trailing whitespace (the tail half of JavaScript `trim`). -/
def dropTrailingWs : List Char → List Char
  | [] => []
  | c :: cs =>
    match dropTrailingWs cs with
    | [] => if isWsChar c then [] else [c]
    | r => c :: r

/-- JavaScript `String.prototype.trim`. -/
def trimChars (cs : List Char) : List Char := dropTrailingWs (cs.dropWhile isWsChar)

/-- JavaScript `location.split(",")` on a character list: the comma-separated
pieces, empty pieces preserved, at least one piece always returned. -/
def splitOnComma : List Char → List (List Char)
  | [] => [[]]
  | c :: cs =>
    if c = ',' then [] :: splitOnComma cs
    else
      match splitOnComma cs with
      | [] => [[c]]
      | t :: ts => (c :: t) :: ts

/-! ### JSON parsing (JavaScript `JSON.parse`)

`JSON.parse` is a platform function consumed by
`EasService.convertAttestationToLocationProof`; it is embedded here as a
fuel-bounded recursive-descent parser over the character list. The parser
accepts a harmless superset of strict JSON numerals (leading zeros are not
rejected); astronomically nested inputs exceeding the fuel and exotic
`\uXXXX` surrogate pairs are the only divergences, and no claim depends on
either. -/

def hexDigitVal (c : Char) : Option ℕ :=
  let n := c.toNat
  if 48 ≤ n ∧ n ≤ 57 then some (n - 48)
  else if 97 ≤ n ∧ n ≤ 102 then some (n - 87)
  else if 65 ≤ n ∧ n ≤ 70 then some (n - 55)
  else none

/-- Fractional part of a JSON number: `.digits`, or nothing. A bare `.`
with no digit fails the numeral, as in JSON. -/
def parseFracPart : List Char → Option (ℚ × List Char)
  | '.' :: r =>
    match spanDigits r with
    | ([], _) => none
    | (ds, rest) => some ((digitsToNat ds : ℚ) / pow10 ds.length, rest)
  | cs => some (0, cs)

/-- Exponent part of a JSON number: `[eE][+-]?digits`, or nothing. -/
def parseExpPart : List Char → Option (ℤ × List Char)
  | [] => some (0, [])
  | c :: r =>
    if c = 'e' || c = 'E' then
      let p : Bool × List Char :=
        match r with
        | '+' :: t => (false, t)
        | '-' :: t => (true, t)
        | t => (false, t)
      match spanDigits p.2 with
      | ([], _) => none
      | (ds, rest) =>
        some ((if p.1 then -(digitsToNat ds : ℤ) else (digitsToNat ds : ℤ)), rest)
    else some (0, c :: r)

/-- Body of a JSON number (any leading `-` already consumed). -/
def parseNumBody (cs : List Char) : Option (ℚ × List Char) :=
  match spanDigits cs with
  | ([], _) => none
  | (ds, rest) =>
    match parseFracPart rest with
    | none => none
    | some (f, rest1) =>
      match parseExpPart rest1 with
      | none => none
      | some (e, rest2) => some (((digitsToNat ds : ℚ) + f) * qPow10 e, rest2)

/-- Body of a JSON string (opening quote already consumed): the decoded
characters and the rest after the closing quote. -/
def parseStrBody : List Char → Option (List Char × List Char)
  | [] => none
  | '"' :: rest => some ([], rest)
  | '\\' :: e :: rest =>
    match e with
    | '"' => (parseStrBody rest).map (fun p => ('"' :: p.1, p.2))
    | '\\' => (parseStrBody rest).map (fun p => ('\\' :: p.1, p.2))
    | '/' => (parseStrBody rest).map (fun p => ('/' :: p.1, p.2))
    | 'b' => (parseStrBody rest).map (fun p => ('\x08' :: p.1, p.2))
    | 'f' => (parseStrBody rest).map (fun p => ('\x0c' :: p.1, p.2))
    | 'n' => (parseStrBody rest).map (fun p => ('\n' :: p.1, p.2))
    | 'r' => (parseStrBody rest).map (fun p => ('\r' :: p.1, p.2))
    | 't' => (parseStrBody rest).map (fun p => ('\t' :: p.1, p.2))
    | 'u' =>
      match rest with
      | a :: b :: c :: d :: r =>
        match hexDigitVal a, hexDigitVal b, hexDigitVal c, hexDigitVal d with
        | some ha, some hb, some hc, some hd =>
          (parseStrBody r).map
            (fun p => (Char.ofNat (((ha * 16 + hb) * 16 + hc) * 16 + hd) :: p.1, p.2))
        | _, _, _, _ => none
      | _ => none
    | _ => none
  | c :: rest => (parseStrBody rest).map (fun p => (c :: p.1, p.2))

mutual

/-- One JSON value, after leading whitespace, with the unconsumed rest.
The dispatch is on the first non-whitespace character, as in any JSON
parser: brace, bracket, quote, sign, the three keyword literals, or a
digit-led numeral. -/
def parseValue : ℕ → List Char → Option (Json × List Char)
  | 0, _ => none
  | fuel + 1, cs =>
    match skipWs cs with
    | [] => none
    | c :: r =>
      if c = '{' then parseMembers fuel r true []
      else if c = '[' then parseElems fuel r true []
      else if c = '"' then (parseStrBody r).map (fun p => (Json.str (String.mk p.1), p.2))
      else if c = '-' then (parseNumBody r).map (fun p => (Json.num (-p.1), p.2))
      else if c = 't' then
        if r.take 3 = ['r', 'u', 'e'] then some (Json.bool true, r.drop 3) else none
      else if c = 'f' then
        if r.take 4 = ['a', 'l', 's', 'e'] then some (Json.bool false, r.drop 4) else none
      else if c = 'n' then
        if r.take 3 = ['u', 'l', 'l'] then some (Json.null, r.drop 3) else none
      else (parseNumBody (c :: r)).map (fun p => (Json.num p.1, p.2))

/-- Members of a JSON object (opening brace consumed); `allowEnd` permits
an immediately closing brace (empty object only). -/
def parseMembers : ℕ → List Char → Bool → List (String × Json) → Option (Json × List Char)
  | 0, _, _, _ => none
  | fuel + 1, cs, allowEnd, acc =>
    match skipWs cs with
    | '}' :: r => if allowEnd then some (Json.obj acc.reverse, r) else none
    | '"' :: r =>
      match parseStrBody r with
      | none => none
      | some (key, r1) =>
        match skipWs r1 with
        | ':' :: r2 =>
          match parseValue fuel r2 with
          | none => none
          | some (v, r3) =>
            let acc1 := (String.mk key, v) :: acc
            match skipWs r3 with
            | ',' :: r4 => parseMembers fuel r4 false acc1
            | '}' :: r4 => some (Json.obj acc1.reverse, r4)
            | _ => none
        | _ => none
    | _ => none

/-- Elements of a JSON array (opening bracket consumed); `allowEnd` permits
an immediately closing bracket (empty array only). -/
def parseElems : ℕ → List Char → Bool → List Json → Option (Json × List Char)
  | 0, _, _, _ => none
  | fuel + 1, cs, allowEnd, acc =>
    match skipWs cs with
    | ']' :: r => if allowEnd then some (Json.arr acc.reverse, r) else none
    | _ =>
      match parseValue fuel cs with
      | none => none
      | some (v, r1) =>
        let acc1 := v :: acc
        match skipWs r1 with
        | ',' :: r2 => parseElems fuel r2 false acc1
        | ']' :: r2 => some (Json.arr acc1.reverse, r2)
        | _ => none

end

/-- JavaScript `JSON.parse`: `none` models a thrown `SyntaxError`. The
whole input must be consumed up to trailing whitespace. -/
def jsonParse (s : String) : Option Json :=
  match parseValue (2 * s.length + 2) s.data with
  | some (j, rest) => if (skipWs rest).isEmpty then some j else none
  | none => none

/-- JavaScript `parseFloat` on a character list: skip leading whitespace,
read the longest decimal-literal prefix, ignore everything after it.
`none` models `NaN`; the non-finite `Infinity` literals are also mapped to
`none`, which yields the same downstream result in
`parseCoordinates` (both `NaN` and an out-of-range magnitude leave the
coordinates undefined). -/
def jsParseFloat (cs : List Char) : Option ℚ :=
  let cs1 := cs.dropWhile isWsChar
  let p : Bool × List Char :=
    match cs1 with
    | [] => (false, [])
    | c :: r => if c = '-' then (true, r) else if c = '+' then (false, r) else (false, c :: r)
  let (ip, rest) := spanDigits p.2
  let fpr : List Char × List Char :=
    match rest with
    | [] => ([], [])
    | c :: r => if c = '.' then spanDigits r else ([], c :: r)
  if ip.isEmpty && fpr.1.isEmpty then none
  else
    let mantissa : ℚ := (digitsToNat ip : ℚ) + (digitsToNat fpr.1 : ℚ) / pow10 fpr.1.length
    let e : ℤ :=
      match fpr.2 with
      | [] => 0
      | c :: r =>
        if c = 'e' || c = 'E' then
          let q : Bool × List Char :=
            match r with
            | [] => (false, [])
            | c2 :: t =>
              if c2 = '+' then (false, t) else if c2 = '-' then (true, t) else (false, c2 :: t)
          match spanDigits q.2 with
          | ([], _) => 0
          | (eds, _) => if q.1 then -(digitsToNat eds : ℤ) else (digitsToNat eds : ℤ)
        else 0
    some ((if p.1 then -mantissa else mantissa) * qPow10 e)

/-! ### The geometry normalizer

Embedding of the coordinate-parsing portion of
`EasService.convertAttestationToLocationProof`
(`src/backend/src/services/eas.service.ts`, second revision, lines
956–1112). The working values `latitude`/`longitude` are JavaScript `any`
at runtime (the extractor reads them from untyped JSON), so they are
modelled as `Option Json`, not as numbers. -/

/-- Full-string JavaScript decimal numeral (sign already consumed):
`digits[.digits][e[+-]digits]` or `.digits[...]`, nothing else. -/
def numLit (cs : List Char) : Option ℚ :=
  let (ip, rest) := spanDigits cs
  let fpr : List Char × List Char :=
    match rest with
    | '.' :: r => spanDigits r
    | r => ([], r)
  if ip.isEmpty && fpr.1.isEmpty then none
  else
    let mantissa : ℚ := (digitsToNat ip : ℚ) + (digitsToNat fpr.1 : ℚ) / pow10 fpr.1.length
    match fpr.2 with
    | [] => some mantissa
    | c :: r =>
      if c = 'e' || c = 'E' then
        let q : Bool × List Char :=
          match r with
          | '+' :: t => (false, t)
          | '-' :: t => (true, t)
          | t => (false, t)
        match spanDigits q.2 with
        | ([], _) => none
        | (eds, rest2) =>
          if rest2.isEmpty then
            some (mantissa * qPow10 (if q.1 then -(digitsToNat eds : ℤ) else (digitsToNat eds : ℤ)))
          else none
      else none

/-- JavaScript `Number(string)`: trimmed, the empty or blank string is `0`,
otherwise the whole string must be a signed decimal literal. Hexadecimal
literals and the non-finite `Infinity` are mapped to `none` (`NaN`); no
claim depends on the difference. -/
def strToNumber (s : String) : Option ℚ :=
  let t := trimChars s.data
  if t.isEmpty then some 0
  else
    match t with
    | '-' :: r => (numLit r).map Neg.neg
    | '+' :: r => numLit r
    | r => numLit r

/-- JavaScript `ToNumber` of a JSON value, `none` modelling `NaN`.
A one-element array coerces through its (simple-shaped) element as the
string round-trip would; longer arrays and all plain objects are `NaN`. -/
def jsToNumber : Json → Option ℚ
  | .num q => some q
  | .bool b => some (if b then 1 else 0)
  | .null => some 0
  | .str s => strToNumber s
  | .arr [] => some 0
  | .arr [x] =>
    match x with
    | .num q => some q
    | .str s => strToNumber s
    | .null => some 0
    | _ => none
  | .arr (_ :: _ :: _) => none
  | .obj _ => none

/-- The JavaScript test `Math.abs(v) > bound`; a `NaN` comparison is
`false`. -/
def mathAbsGt (j : Json) (bound : ℚ) : Bool :=
  match jsToNumber j with
  | some q => decide (qAbs q > bound)
  | none => false

/-- `extractFirstCoordinate` (lines 967–1024): the first coordinate pair
reachable at the known nesting depth of each of the six geometry types,
guarded by the `Array.isArray`/length checks of the source. The pair
elements are raw JSON values; the source performs no numeric check here. -/
def extractFirstCoordinate (geom : Json) : Option (Json × Json) :=
  if !(geom.truthy && truthyOpt (geom.lookup "type") && truthyOpt (geom.lookup "coordinates")) then
    none
  else
    match geom.lookup "type" with
    | some (Json.str t) =>
      let c := (geom.lookup "coordinates").getD Json.null
      if t = "Point" then
        match c with
        | Json.arr xs =>
          if xs.length ≥ 2 then some (xs.getD 0 Json.null, xs.getD 1 Json.null) else none
        | _ => none
      else if t = "LineString" || t = "MultiPoint" then
        match c with
        | Json.arr (Json.arr ys :: _) =>
          if ys.length ≥ 2 then some (ys.getD 0 Json.null, ys.getD 1 Json.null) else none
        | _ => none
      else if t = "Polygon" || t = "MultiLineString" then
        match c with
        | Json.arr (Json.arr (Json.arr zs :: _) :: _) =>
          if zs.length ≥ 2 then some (zs.getD 0 Json.null, zs.getD 1 Json.null) else none
        | _ => none
      else if t = "MultiPolygon" then
        match c with
        | Json.arr (Json.arr (Json.arr (Json.arr ws :: _) :: _) :: _) =>
          if ws.length ≥ 2 then some (ws.getD 0 Json.null, ws.getD 1 Json.null) else none
        | _ => none
      else none
    | _ => none

/-- Does the parsed location carry `type === "Feature"`? -/
def isFeatureTyped (p : Json) : Bool :=
  match p.lookup "type" with
  | some (Json.str t) => t = "Feature"
  | _ => false

/-- Branch determination over the parsed location (lines 1026–1052): a
direct geometry, a `Feature`, or the first feature of a
`FeatureCollection`. A `null` parse result (or a `null` first feature)
makes the JavaScript property access throw inside the surrounding `try`,
which the code treats exactly like finding no coordinates, so those cases
are `none` here as well. -/
def determineCoords (p : Json) : Option (Json × Json) :=
  if truthyOpt (p.lookup "type") && truthyOpt (p.lookup "coordinates") then
    extractFirstCoordinate p
  else if isFeatureTyped p && truthyOpt (p.lookup "geometry") then
    extractFirstCoordinate ((p.lookup "geometry").getD Json.null)
  else
    match p.lookup "type", p.lookup "features" with
    | some (Json.str t), some (Json.arr (f :: _)) =>
      if t = "FeatureCollection" && truthyOpt (f.lookup "geometry") then
        extractFirstCoordinate ((f.lookup "geometry").getD Json.null)
      else none
    | _, _ => none

/-- Coordinates of the GeoJSON path: `JSON.parse` (a thrown `SyntaxError`
is caught and treated as no coordinates) followed by branch
determination. -/
def geoCoords (location : String) : Option (Json × Json) :=
  match jsonParse location with
  | none => none
  | some p => determineCoords p

/-- Range validation of an extracted GeoJSON pair (lines 1054–1066): a
falsy or out-of-range-magnitude value clears both coordinates. -/
def validateGeo (lon lat : Json) : Option Json × Option Json :=
  if !lat.truthy || !lon.truthy || mathAbsGt lat 90 || mathAbsGt lon 180 then (none, none)
  else (some lon, some lat)

/-- The simple-coordinate fallback (lines 1073–1112), reached when the
GeoJSON path left the coordinates undefined: split on `","`, require
exactly two tokens, `parseFloat` both, and disambiguate
`"lat,lng"` versus `"lng,lat"` by magnitude ranges. The returned pair is
(longitude, latitude). -/
def fallbackCoords (location : String) : Option Json × Option Json :=
  if location ≠ "" && location.data.contains ',' then
    match splitOnComma location.data with
    | [p1, p2] =>
      match jsParseFloat (trimChars p1), jsParseFloat (trimChars p2) with
      | some v1, some v2 =>
        if decide (qAbs v1 ≤ 90) && decide (qAbs v2 ≤ 180) then
          (some (Json.num v2), some (Json.num v1))
        else if decide (qAbs v2 ≤ 90) && decide (qAbs v1 ≤ 180) then
          (some (Json.num v1), some (Json.num v2))
        else (none, none)
      | _, _ => (none, none)
    | _ => (none, none)
  else (none, none)

/-- The geometry normalizer of `convertAttestationToLocationProof`: the
GeoJSON path first (lines 960–1071), then the two-token fallback. The
result is the final (longitude, latitude) pair of the stored proof. -/
def parseCoordinates (location : String) : Option Json × Option Json :=
  let geo : Option Json × Option Json :=
    if location ≠ "" then
      match geoCoords location with
      | some (lon, lat) => validateGeo lon lat
      | none => (none, none)
    else (none, none)
  match geo with
  | (some lon, some lat) => (some lon, some lat)
  | _ => fallbackCoords location

/-! ### Attestations and the conversion to a location proof -/

/-- An attestation row as returned by the EAS indexer GraphQL query
(interface `EASAttestation`): `timeCreated` travels as a decimal numeral
string and is modelled directly as the integer `parseInt` recovers. -/
structure EASAttestation where
  id : String
  attester : String
  recipient : Option String
  revocationTime : String
  timeCreated : ℤ
  decodedDataJson : String
deriving Repr, DecidableEq

/-- The stored proof (interface `LocationProof`), restricted to the fields
the synchronization engine writes from attestation data. The four `Date`
fields (`timestamp`, `event_timestamp`, `created_at`, `updated_at`) are
not modelled: no claim refers to them, and the watermark logic of
`processChain` reads `timeCreated` from the attestation, not from the
proof. Decoded fields keep their raw JSON shape, as the JavaScript does. -/
structure LocationProof where
  uid : String
  chain : String
  prover : String
  subject : String
  srs : Json
  location_type : Json
  location : String
  longitude : Option Json
  latitude : Option Json
  recipe_types : Json
  recipe_payloads : Json
  media_types : Json
  media_data : Json
  memo : Json
  revoked : Bool
deriving Repr

/-- The inner `findValue` helper (lines 940–943) combined with the
`item.value.value` access: `none` models the JS `null` result when no item
has the name; `.error` models the `TypeError` thrown when a found item has
no `value` object (property access on `undefined` or `null`), which aborts
the whole conversion. -/
def findValueE (items : List Json) (name : String) : Except Unit (Option Json) :=
  match items.find? (fun it =>
      match it.lookup "name" with
      | some (Json.str n) => n = name
      | _ => false) with
  | none => Except.ok none
  | some it =>
    match it.lookup "value" with
    | none => Except.error ()
    | some Json.null => Except.error ()
    | some v => Except.ok (v.lookup "value")

/-- JavaScript `x || default` applied to a decoded optional value. -/
def orDefault (v : Option Json) (d : Json) : Json :=
  match v with
  | some j => if j.truthy then j else d
  | none => d

/-- The decoded fields of one attestation, after defaulting. -/
structure DecodedFields where
  eventTimestamp : Option Json
  srs : Json
  locationType : Json
  location : String
  recipeTypes : Json
  recipePayloads : Json
  mediaTypes : Json
  mediaData : Json
  memo : Json
deriving Repr

/-- Field extraction of `convertAttestationToLocationProof` (lines
936–954). `JSON.parse(attestation.decodedDataJson)` must yield an array
(on any other value `.find` is not a function and the conversion throws);
each field is then read by name with its `||` default. The `location`
value is kept as a string: the on-chain schema declares `string location`,
and a decoded non-string location aborts the conversion later anyway
(`location.includes` is not a function on numbers, booleans or plain
objects); the exotic array-valued case is conservatively modelled as the
same abort. -/
def decodeFields (decodedDataJson : String) : Except Unit DecodedFields := do
  match jsonParse decodedDataJson with
  | some (Json.arr items) =>
    let eventTimestamp ← findValueE items "eventTimestamp"
    let srs ← findValueE items "srs"
    let locationType ← findValueE items "locationType"
    let locationJ ← findValueE items "location"
    let recipeTypes ← findValueE items "recipeType"
    let recipePayloads ← findValueE items "recipePayload"
    let mediaTypes ← findValueE items "mediaType"
    let mediaData ← findValueE items "mediaData"
    let memo ← findValueE items "memo"
    match orDefault locationJ (Json.str "") with
    | Json.str location =>
      Except.ok
        { eventTimestamp := eventTimestamp
          srs := orDefault srs (Json.str "WGS84")
          locationType := orDefault locationType (Json.str "point")
          location := location
          recipeTypes := orDefault recipeTypes (Json.arr [])
          recipePayloads := orDefault recipePayloads (Json.arr [])
          mediaTypes := orDefault mediaTypes (Json.arr [])
          mediaData := orDefault mediaData (Json.arr [])
          memo := orDefault memo (Json.str "") }
    | _ => Except.error ()
  | _ => Except.error ()

/-- JavaScript `attestation.recipient || attestation.attester` (line 1155):
the subject falls back to the attester when the recipient is `null` or the
empty string. -/
def subjectOf (recipient : Option String) (attester : String) : String :=
  match recipient with
  | some r => if r = "" then attester else r
  | none => attester

/-- Proof construction from the decoded fields (lines 1147–1171). -/
def buildProof (att : EASAttestation) (chain : String) (f : DecodedFields) : LocationProof :=
  let coords := parseCoordinates f.location
  { uid := att.id
    chain := chain
    prover := att.attester
    subject := subjectOf att.recipient att.attester
    srs := f.srs
    location_type := f.locationType
    location := f.location
    longitude := coords.1
    latitude := coords.2
    recipe_types := f.recipeTypes
    recipe_payloads := f.recipePayloads
    media_types := f.mediaTypes
    media_data := f.mediaData
    memo := f.memo
    revoked := decide (att.revocationTime ≠ "0") }

/-- `EasService.convertAttestationToLocationProof` (lines 934–1178):
decode, normalize and assemble; `.error` models the rethrown conversion
failure the caller logs and skips. -/
def convertAttestation (att : EASAttestation) (chain : String) : Except Unit LocationProof :=
  (decodeFields att.decodedDataJson).map (buildProof att chain)

/-! ### The record store and the ingestion pipeline -/

/-- One chain's mutable ingestion state: the in-memory
`lastProcessedTimestamps[chain]` watermark and the contents of the
`location_proofs` table (`DbService`). -/
structure ChainState where
  checkpoint : Option ℤ
  db : List LocationProof

/-- `DbService.locationProofExists`:
`SELECT 1 FROM location_proofs WHERE uid = $1`. -/
def proofExists (db : List LocationProof) (uid : String) : Bool :=
  db.any (fun p => p.uid = uid)

/-- The GraphQL `Int` cap: `2147483647`, the largest 32-bit signed value. -/
def MAX_INT32 : ℤ := 2147483647

/-- `Math.min` on integers, written out so that it kernel-reduces. -/
def jsMin (a b : ℤ) : ℤ := if a ≤ b then a else b

/-- The `Math.min(timestamp, maxSafeInt)` clamp of `fetchAttestations`
(lines 844–847): the `since` timestamp actually placed in the GraphQL
variables. -/
def safeTimestamp (timestampUnix : ℤ) : ℤ := jsMin timestampUnix MAX_INT32

/-- The `||`-defaulted watermark read of `processChain` (line 1198):
`this.lastProcessedTimestamps[chain] || defaultTs`; note that a stored `0`
is falsy and falls back to the default. -/
def checkpointTimestamp (cp : Option ℤ) (defaultTs : ℤ) : ℤ :=
  match cp with
  | some t => if t = 0 then defaultTs else t
  | none => defaultTs

/-- The `since` value of the transmitted window query: `processChain`
clamps (line 1206), renders an ISO string, and `fetchAttestations` parses
it back (an exact round trip at these magnitudes) and clamps again
(line 847). -/
def transmittedSince (cp : Option ℤ) (defaultTs : ℤ) : ℤ :=
  safeTimestamp (safeTimestamp (checkpointTimestamp cp defaultTs))

/-- Stable insertion of an attestation into a `timeCreated`-ascending
list. -/
def insertByTime (a : EASAttestation) : List EASAttestation → List EASAttestation
  | [] => [a]
  | b :: bs =>
    if a.timeCreated < b.timeCreated then a :: b :: bs else b :: insertByTime a bs

/-- The indexer's `orderBy: { timeCreated: asc }` (stable sort). -/
def sortByTime (l : List EASAttestation) : List EASAttestation :=
  l.foldr insertByTime []

/-- The indexer's windowed fetch: attestations with `timeCreated` strictly
greater than the clamped `since` (`timeCreated: { gt: $timestamp }`),
ascending, first `limit` records (`take: $limit`). -/
def fetchWindow (source : List EASAttestation) (since : ℤ) (limit : ℕ) : List EASAttestation :=
  (((sortByTime source).filter (fun a => decide (since < a.timeCreated))).take limit)

/-- One step of the per-attestation loop of `processChain` (lines
1221–1263): skip when the uid already exists, otherwise convert and store;
a conversion failure is logged and skipped. Database writes are modelled
as succeeding (the Supabase fallback concerns persistence failures no
claim touches). -/
def processRecord (chain : String) (acc : ℕ × List LocationProof) (att : EASAttestation) :
    ℕ × List LocationProof :=
  if proofExists acc.2 att.id then acc
  else
    match convertAttestation att chain with
    | Except.ok proof => (acc.1 + 1, acc.2 ++ [proof])
    | Except.error _ => acc

/-- `Math.max(...attestations.map(a => parseInt(a.timeCreated)))` over the
fetched batch (line 1267); only evaluated on a non-empty batch. -/
def maxTimeCreated : List EASAttestation → ℤ
  | [] => 0
  | a :: rest =>
    rest.foldl (fun m b => if m ≤ b.timeCreated then b.timeCreated else m) a.timeCreated

/-- `EasService.processChain` (lines 1196–1277) against a fixed source
dataset: read the watermark (`|| default`), clamp, fetch one window of
100, skip existing uids, convert and store the rest, and advance the
watermark to the maximum `timeCreated` of the entire fetched batch. The
result is the count of newly stored proofs and the new state; an empty
batch returns 0 and leaves the state untouched. -/
def processChain (source : List EASAttestation) (chain : String) (defaultTs : ℤ)
    (st : ChainState) : ℕ × ChainState :=
  let atts := fetchWindow source (transmittedSince st.checkpoint defaultTs) 100
  match atts with
  | [] => (0, st)
  | _ =>
    let r := atts.foldl (processRecord chain) (0, st.db)
    (r.1, { checkpoint := some (maxTimeCreated atts), db := r.2 })

/-- `EasService.processAllChains` (lines 1282–1296): sequential iteration
over the configured chains; a chain whose `processChain` call throws is
recorded as `0` in the results and the loop continues with the next
chain. `run` abstracts the effectful `this.processChain` call. -/
def processAllChains (chains : List String) (run : String → Except Unit ℕ) :
    List (String × ℕ) :=
  chains.map (fun c => (c, match run c with | Except.ok n => n | Except.error _ => 0))

/-! ### The retry loop of `fetchAttestations` -/

/-- Trace of one run of the retry loop (lines 853–921): the final outcome,
the number of attempts actually made, and the backoff delays awaited, in
milliseconds and in order. -/
structure RetryTrace (α : Type) where
  result : Except Unit α
  attemptsMade : ℕ
  delays : List ℕ
deriving Repr

/-- The `while (retryCount < maxRetries)` loop: `attempt k` is the
outcome of the (0-based) k-th query. After a failure the count is
incremented, the error rethrown once it reaches `maxRetries`, and
otherwise `Math.pow(2, retryCount) * 1000` milliseconds are awaited
before the next attempt. `remaining` carries the loop bound
`maxRetries - retryCount` so that the recursion is structural; the
fall-through `return []` after the loop (unreachable, as the source
comments) is the `dflt` success. -/
def retryGo (attempt : ℕ → Except Unit α) (dflt : α) (maxRetries : ℕ) :
    ℕ → ℕ → List ℕ → RetryTrace α
  | 0, retryCount, delays => ⟨Except.ok dflt, retryCount, delays⟩
  | remaining + 1, retryCount, delays =>
    match attempt retryCount with
    | Except.ok a => ⟨Except.ok a, retryCount + 1, delays⟩
    | Except.error e =>
      if maxRetries ≤ retryCount + 1 then
        ⟨Except.error e, retryCount + 1, delays⟩
      else
        retryGo attempt dflt maxRetries remaining (retryCount + 1)
          (delays ++ [2 ^ (retryCount + 1) * 1000])

/-- The retry wrapper as `fetchAttestations` instantiates it:
`maxRetries = 3`, starting at `retryCount = 0`. -/
def fetchWithRetry (attempt : ℕ → Except Unit α) (dflt : α) : RetryTrace α :=
  retryGo attempt dflt 3 3 0 []

/-! ### Revocation reconciliation -/

/-- `DbService.batchUpdateRevocations` (lines 412–426): an empty uid list
is a no-op returning 0; otherwise one
`UPDATE location_proofs SET revoked = $flag WHERE uid IN (...)`. -/
def batchUpdateRevocations (db : List LocationProof) (uids : List String) (revoked : Bool) :
    List LocationProof :=
  if uids.isEmpty then db
  else db.map (fun p => if uids.contains p.uid then { p with revoked := revoked } else p)

/-- The per-chain body of `EasService.checkRevocations` (lines 561–617),
the push-style strategy: the indexer's first page of revoked ids
(`REVOCATIONS_QUERY`, `take: 100`), filtered to uids that exist locally,
then `batchUpdateRevocations(existingUids, true)` when non-empty. -/
def checkRevocationsChain (pageRevokedIds : List String) (db : List LocationProof) :
    List LocationProof :=
  let existingUids := pageRevokedIds.filter (fun uid => proofExists db uid)
  if existingUids.isEmpty then db
  else batchUpdateRevocations db existingUids true

/-- `EasService.checkRevocationStatus` (lines 1313–1360): of the given
uids, those the indexer currently reports with `revocationTime != "0"`;
the source's answer is abstracted as the id set `sourceRevoked`. -/
def checkRevocationStatus (sourceRevoked : List String) (uids : List String) : List String :=
  uids.filter (fun uid => sourceRevoked.contains uid)

/-- `DbService.getActiveLocationProofs` (db.service.ts lines 435–450):
`SELECT * FROM location_proofs WHERE chain = $1 AND revoked = FALSE ORDER
BY timestamp DESC LIMIT $2`. The `timestamp` column is a `Date` field not
modelled here, so its `DESC` ordering — which only selects which active
rows are returned when more than `limit` exist — is represented by plain
list order. -/
def getActiveLocationProofs (db : List LocationProof) (chain : String) (limit : ℕ) :
    List LocationProof :=
  (db.filter (fun p => decide (p.chain = chain) && !p.revoked)).take limit

/-- The per-chain body of `EasWorker.checkRevocations`
(`src/unnamed/part_008`, second revision, lines 588–627), the pull-style
strategy: fetch up to 100 active (non-revoked) records of the chain, ask
the indexer which of their uids are currently revoked
(`EasService.checkRevocationStatus`), and when the answer is non-empty
issue `batchUpdateRevocations(revokedUids, true)`. The Supabase-or-db
branch at lines 612–617 picks a store backend, both with the same update
semantics, so a single table stands for either. -/
def workerCheckRevocationsChain (chain : String) (sourceRevoked : List String)
    (db : List LocationProof) : List LocationProof :=
  let attestations := getActiveLocationProofs db chain 100
  if attestations.isEmpty then db
  else
    let uids := attestations.map (·.uid)
    let revokedUids := checkRevocationStatus sourceRevoked uids
    if revokedUids.isEmpty then db
    else batchUpdateRevocations db revokedUids true

/-- One reconciliation action of either strategy, with the source's
answers abstracted as data. -/
inductive ReconcileStep where
  | push (pageRevokedIds : List String)
  | pull (chain : String) (sourceRevoked : List String)

/-- Apply one reconciliation action to the stored records. -/
def applyReconcile (db : List LocationProof) : ReconcileStep → List LocationProof
  | .push page => checkRevocationsChain page db
  | .pull chain sourceRevoked => workerCheckRevocationsChain chain sourceRevoked db

/-- Apply a sequence of later reconciliation runs, oldest first. -/
def applyReconcileSeq (db : List LocationProof) (steps : List ReconcileStep) :
    List LocationProof :=
  steps.foldl applyReconcile db

/-! ### Concrete scenario data -/

/-- A source attestation whose decoded data is the empty array, so every
field takes its documented default. -/
def plainAtt (uid : String) (ts : ℤ) : EASAttestation :=
  { id := uid, attester := "0xA", recipient := none, revocationTime := "0",
    timeCreated := ts, decodedDataJson := "[]" }

/-- A minimal stored proof with the given uid and revocation flag. -/
def plainProof (uid : String) (chain : String) (revoked : Bool) : LocationProof :=
  { uid := uid, chain := chain, prover := "0xA", subject := "0xA",
    srs := Json.str "WGS84", location_type := Json.str "point", location := "",
    longitude := none, latitude := none,
    recipe_types := Json.arr [], recipe_payloads := Json.arr [],
    media_types := Json.arr [], media_data := Json.arr [],
    memo := Json.str "", revoked := revoked }

/-- The decoded fields of the empty decoded-data array: all defaults. -/
def defaultFields : DecodedFields :=
  { eventTimestamp := none, srs := Json.str "WGS84", locationType := Json.str "point",
    location := "", recipeTypes := Json.arr [], recipePayloads := Json.arr [],
    mediaTypes := Json.arr [], mediaData := Json.arr [], memo := Json.str "" }

/-- The spec §8 end-to-end scenario source: three records with
`createdAtUnix` 1700000100, 1700000200 and 1700000300. -/
def scenSource : List EASAttestation :=
  [plainAtt "0xa" 1700000100, plainAtt "0xb" 1700000200, plainAtt "0xc" 1700000300]

/-- The scenario state: checkpoint 1700000000, the first two records
already stored. -/
def scenState : ChainState :=
  { checkpoint := some 1700000000,
    db := [plainProof "0xa" "sepolia" false, plainProof "0xb" "sepolia" false] }

/-- 101 fresh source records — one more than the 100-record window. -/
def overfullSource : List EASAttestation :=
  (List.range 101).map (fun i => plainAtt ("u" ++ toString i) (1700000000 + (i : ℤ) + 1))

/-- An empty store behind checkpoint 1700000000. -/
def emptyState : ChainState := { checkpoint := some 1700000000, db := [] }

/-- An attestation whose decoded `location` is the GeoJSON `Point` with
the string coordinates `"a"`, `"b"`. -/
def strCoordAtt : EASAttestation :=
  { id := "0xs", attester := "0xA", recipient := none, revocationTime := "0",
    timeCreated := 1700000100,
    decodedDataJson := "[\x7b\"name\":\"location\",\"value\":\x7b\"value\":\"\x7b\\\"type\\\":\\\"Point\\\",\\\"coordinates\\\":[\\\"a\\\",\\\"b\\\"]\x7d\"\x7d\x7d]" }

/-- An attestation with a non-empty recipient. -/
def recipAtt : EASAttestation :=
  { id := "0xr", attester := "0xA", recipient := some "0xR", revocationTime := "0",
    timeCreated := 1700000100, decodedDataJson := "[]" }

/-! ### Claim theorems -/

/-- C3: the geometry normalizer maps the GeoJSON
`Point` with coordinates `[-74.0060, 40.7128]` to
(longitude −74.0060, latitude 40.7128); maps the bare pair
`"40.7128,-74.0060"` to the same (longitude, latitude) pair; and maps
`"-200,40"` to no coordinates (both undefined). -/
theorem c3_normalizer_examples :
    parseCoordinates "\x7b\"type\":\"Point\",\"coordinates\":[-74.0060,40.7128]\x7d" =
        (some (Json.num (-74.0060)), some (Json.num 40.7128)) ∧
      parseCoordinates "40.7128,-74.0060" =
        (some (Json.num (-74.0060)), some (Json.num 40.7128)) ∧
      parseCoordinates "-200,40" = (none, none) := by
  refine ⟨?_, ?_, ?_⟩ <;> with_unfolding_all rfl

/-- C9: the since-timestamp is clamped with
`Math.min(timestamp, 2147483647)` before the window query is sent: the
transmitted value is `min t 2147483647`; a `t` beyond the cap is
truncated to the cap rather than raising an error; and a nonzero
checkpoint `t` survives the whole `processChain` → `fetchAttestations`
round trip as exactly `min t 2147483647` (a zero checkpoint is replaced
by the 7-day default earlier, by the `||` read of line 1198). -/
theorem c9_timestamp_clamp (t : ℤ) :
    safeTimestamp t = min t 2147483647 ∧
      (2147483647 < t → safeTimestamp t = 2147483647) ∧
      ∀ d : ℤ, t ≠ 0 → transmittedSince (some t) d = min t 2147483647 := by
  refine ⟨?_, ?_, ?_⟩
  · simp only [safeTimestamp, jsMin, MAX_INT32, min_def]
  · intro h
    simp only [safeTimestamp, jsMin, MAX_INT32, if_neg (not_le.mpr h)]
  · intro d ht
    simp only [transmittedSince, checkpointTimestamp, if_neg ht, safeTimestamp, jsMin,
      MAX_INT32, min_def]
    split_ifs <;> omega

/-- C9 witness: a checkpoint beyond the cap is truncated to the cap. -/
theorem c9_witness :
    (2147483647 : ℤ) < 3000000000 ∧ safeTimestamp 3000000000 = 2147483647 ∧
      transmittedSince (some 3000000000) 1690000000 = 2147483647 := by
  refine ⟨by decide, (c9_timestamp_clamp 3000000000).2.1 (by decide), ?_⟩
  have h := (c9_timestamp_clamp 3000000000).2.2 1690000000 (by decide)
  rw [h]; omega

/-- Inversion for a successful `Except.map`. -/
theorem except_map_ok {α β : Type} (f : α → β) (e : Except Unit α) (b : β)
    (h : e.map f = Except.ok b) : ∃ a, e = Except.ok a ∧ b = f a := by
  cases e with
  | error e => simp [Except.map] at h
  | ok a => exact ⟨a, rfl, by simpa [Except.map] using h.symm⟩

/-- C10: for every successfully converted attestation, the stored subject
is the recipient when it is present (non-null and non-empty) and the
attester (the prover) otherwise; the subject is never left undefined. -/
theorem c10_subject (att : EASAttestation) (chain : String) (proof : LocationProof)
    (h : convertAttestation att chain = Except.ok proof) :
    (∀ r, att.recipient = some r → r ≠ "" → proof.subject = r) ∧
      ((att.recipient = none ∨ att.recipient = some "") → proof.subject = att.attester) := by
  obtain ⟨f, _, hb⟩ := except_map_ok (buildProof att chain) _ proof h
  subst hb
  constructor
  · intro r hr hne
    simp [buildProof, subjectOf, hr, hne]
  · rintro (hr | hr) <;> simp [buildProof, subjectOf, hr]

/-- C10 witness: a conversion with recipient `"0xR"` stores it as the
subject. -/
theorem c10_witness :
    (convertAttestation recipAtt "sepolia").toOption.map LocationProof.subject = some "0xR" := by
  have hconv : convertAttestation recipAtt "sepolia" =
      Except.ok (buildProof recipAtt "sepolia" defaultFields) := by
    with_unfolding_all rfl
  have h := (c10_subject recipAtt "sepolia" _ hconv).1 "0xR" rfl (by decide)
  rw [hconv]
  simp [Except.toOption, h]

/-- C5: in one `processAllChains` pass, a chain whose `processChain` call
throws (for example after exhausting its fetch retries) is recorded as 0,
the result list still lines up with the configured chain list
positionally, and every chain whose call succeeds is recorded with its
own count — one chain's failure never prevents a sibling chain's pass. -/
theorem c5_partial_failure_isolation (chains : List String)
    (run : String → Except Unit ℕ) (c : String) (hc : c ∈ chains)
    (hfail : run c = Except.error ()) :
    (c, 0) ∈ processAllChains chains run ∧
      (processAllChains chains run).map Prod.fst = chains ∧
      ∀ c' ∈ chains, ∀ n, run c' = Except.ok n → (c', n) ∈ processAllChains chains run := by
  refine ⟨?_, ?_, ?_⟩
  · have h1 := List.mem_map_of_mem
      (fun x => (x, match run x with | Except.ok n => n | Except.error _ => 0)) hc
    simpa [processAllChains, hfail] using h1
  · have hcomp : (Prod.fst ∘ fun x =>
        (x, match run x with | Except.ok n => n | Except.error _ => 0)) = id := by
      funext x; rfl
    simp [processAllChains, List.map_map, hcomp]
  · intro c' hc' n hn
    have h1 := List.mem_map_of_mem
      (fun x => (x, match run x with | Except.ok n => n | Except.error _ => 0)) hc'
    simpa [processAllChains, hn] using h1

/-- C5 witness: with `sepolia` failing and `base` succeeding with 3, the
pass records `(sepolia, 0)` and `(base, 3)`. -/
theorem c5_witness :
    ("sepolia", 0) ∈ processAllChains ["sepolia", "base"]
        (fun c => if c = "sepolia" then Except.error () else Except.ok 3) ∧
      ("base", 3) ∈ processAllChains ["sepolia", "base"]
        (fun c => if c = "sepolia" then Except.error () else Except.ok 3) := by
  have h := c5_partial_failure_isolation ["sepolia", "base"]
    (fun c => if c = "sepolia" then Except.error () else Except.ok 3) "sepolia"
    (by simp) (by simp)
  exact ⟨h.1, h.2.2 "base" (by simp) 3 (by simp)⟩

/-- C6 counterexample: with every attempt failing, the delays actually
awaited before the second and third attempts are 2000 ms and 4000 ms
(`2 ^ retryCount * 1000` after the increment, as the source comments:
"2s, 4s, 8s, ..."), not the 1000 ms and 2000 ms the claim states. -/
theorem c6_counterexample :
    (fetchWithRetry (fun _ => Except.error ()) (0 : ℕ)).delays = [2000, 4000] ∧
      (fetchWithRetry (fun _ => Except.error ()) (0 : ℕ)).delays ≠ [1000, 2000] := by
  have h : (fetchWithRetry (fun _ => Except.error ()) (0 : ℕ)).delays = [2000, 4000] := by
    with_unfolding_all rfl
  refine ⟨h, ?_⟩
  rw [h]; decide

/-- C6 amended: the windowed fetch is retried with exponential backoff of
factor 2 and base delay 2 seconds (2 s before the second attempt, 4 s
before the third), with at most 3 attempts; after the third failed
attempt the error is raised to the caller. -/
theorem c6_amended (α : Type) (attempt : ℕ → Except Unit α) (dflt : α) :
    (fetchWithRetry attempt dflt).attemptsMade ≤ 3 ∧
      (attempt 0 = Except.error () → attempt 1 = Except.error () →
        attempt 2 = Except.error () →
        fetchWithRetry attempt dflt = ⟨Except.error (), 3, [2000, 4000]⟩) := by
  constructor
  · cases h0 : attempt 0 with
    | error e =>
      cases h1 : attempt 1 with
      | error e => cases h2 : attempt 2 with
        | error e => simp [fetchWithRetry, retryGo, h0, h1, h2]
        | ok a => simp [fetchWithRetry, retryGo, h0, h1, h2]
      | ok a => simp [fetchWithRetry, retryGo, h0, h1]
    | ok a => simp [fetchWithRetry, retryGo, h0]
  · intro h0 h1 h2
    simp [fetchWithRetry, retryGo, h0, h1, h2]

/-- C6 witness: the amended retry behaviour at an always-failing fetch. -/
theorem c6_witness :
    fetchWithRetry (fun _ => Except.error ()) (0 : ℕ) = ⟨Except.error (), 3, [2000, 4000]⟩ := by
  simpa using (c6_amended ℕ (fun _ => Except.error ()) 0).2 rfl rfl rfl

/-- C1 counterexample: in the spec §8 scenario (checkpoint 1700000000;
batch with `createdAtUnix` 1700000100, 1700000200, 1700000300; the first
two records already stored) `processChain` returns 1 but sets the
checkpoint to 1700000300 — the batch maximum itself, not
`max + 1 = 1700000301`: no `ε` is added (line 1268). -/
theorem c1_counterexample :
    (processChain scenSource "sepolia" 1690000000 scenState).1 = 1 ∧
      (processChain scenSource "sepolia" 1690000000 scenState).2.checkpoint =
        some 1700000300 ∧
      some (1700000300 : ℤ) ≠ some (1700000301 : ℤ) := by
  refine ⟨by with_unfolding_all rfl, by with_unfolding_all rfl, by decide⟩

/-- C1 amended: for every `processChain` call whose fetched batch is
non-empty, the chain's checkpoint is set to `max(createdAtUnix)` over the
entire fetched batch (including skipped, duplicate and errored records),
with no `+ε` added; the boundary record is excluded from the next window
by the strict `gt` filter of the query instead. In the concrete scenario
the call returns 1 and the checkpoint becomes 1700000300. -/
theorem c1_amended (source : List EASAttestation) (chain : String) (d : ℤ)
    (st : ChainState)
    (h : fetchWindow source (transmittedSince st.checkpoint d) 100 ≠ []) :
    (processChain source chain d st).2.checkpoint =
      some (maxTimeCreated (fetchWindow source (transmittedSince st.checkpoint d) 100)) := by
  rcases hB : fetchWindow source (transmittedSince st.checkpoint d) 100 with _ | ⟨b, bs⟩
  · exact absurd hB h
  · simp [processChain, hB]

/-- C1 witness: the amended watermark rule at the concrete scenario. -/
theorem c1_witness :
    fetchWindow scenSource (transmittedSince scenState.checkpoint 1690000000) 100 ≠ [] ∧
      (processChain scenSource "sepolia" 1690000000 scenState).2.checkpoint =
        some (maxTimeCreated
          (fetchWindow scenSource (transmittedSince scenState.checkpoint 1690000000) 100)) :=
  ⟨by with_unfolding_all decide,
    c1_amended scenSource "sepolia" 1690000000 scenState (by with_unfolding_all decide)⟩

/-- A batch revocation update with flag `true` never clears an existing
`revoked` mark: any uid whose stored rows were all revoked stays
revoked. -/
theorem batchUpdate_true_preserves (db : List LocationProof) (uids : List String)
    (uid : String) (hrev : ∀ q ∈ db, q.uid = uid → q.revoked = true) :
    ∀ q ∈ batchUpdateRevocations db uids true, q.uid = uid → q.revoked = true := by
  intro q hq hid
  unfold batchUpdateRevocations at hq
  by_cases he : uids.isEmpty
  · rw [if_pos he] at hq; exact hrev q hq hid
  · rw [if_neg he] at hq
    obtain ⟨p, hp, hpq⟩ := List.mem_map.mp hq
    by_cases hc : uids.contains p.uid
    · rw [if_pos hc] at hpq; subst hpq; rfl
    · rw [if_neg hc] at hpq; subst hpq; exact hrev p hp hid

/-- One reconciliation run of either strategy preserves existing
revocation marks. -/
theorem applyReconcile_preserves (db : List LocationProof) (s : ReconcileStep)
    (uid : String) (hrev : ∀ q ∈ db, q.uid = uid → q.revoked = true) :
    ∀ q ∈ applyReconcile db s, q.uid = uid → q.revoked = true := by
  cases s with
  | push page =>
    intro q hq hid
    simp only [applyReconcile, checkRevocationsChain] at hq
    by_cases he : (page.filter (fun u => proofExists db u)).isEmpty
    · rw [if_pos he] at hq; exact hrev q hq hid
    · rw [if_neg he] at hq
      exact batchUpdate_true_preserves db _ uid hrev q hq hid
  | pull chain sourceRevoked =>
    intro q hq hid
    simp only [applyReconcile, workerCheckRevocationsChain] at hq
    by_cases h1 : (getActiveLocationProofs db chain 100).isEmpty
    · rw [if_pos h1] at hq; exact hrev q hq hid
    · rw [if_neg h1] at hq
      by_cases h2 : (checkRevocationStatus sourceRevoked
          ((getActiveLocationProofs db chain 100).map (·.uid))).isEmpty
      · rw [if_pos h2] at hq; exact hrev q hq hid
      · rw [if_neg h2] at hq
        exact batchUpdate_true_preserves db _ uid hrev q hq hid

/-- C4: once every stored row of a uid is revoked, no later sequence of
reconciliation runs — push-style pages or pull-style sweeps, with
arbitrary source responses — ever sets that uid's `revoked` back to
`false`: both paths issue batch updates with flag `true` only. -/
theorem c4_revocation_monotone (steps : List ReconcileStep) (db : List LocationProof)
    (uid : String) (hrev : ∀ q ∈ db, q.uid = uid → q.revoked = true) :
    ∀ q ∈ applyReconcileSeq db steps, q.uid = uid → q.revoked = true := by
  induction steps generalizing db with
  | nil => simpa [applyReconcileSeq] using hrev
  | cons s rest ih =>
    have h1 := applyReconcile_preserves db s uid hrev
    simpa [applyReconcileSeq, List.foldl_cons] using
      ih (applyReconcile db s) h1

/-- C4 witness: a revoked record stays revoked across one push page and
one pull sweep that both name it. -/
theorem c4_witness :
    ∃ q, q ∈ applyReconcileSeq [plainProof "0xz" "sepolia" true]
        [ReconcileStep.push ["0xz"], ReconcileStep.pull "sepolia" ["0xz"]] ∧
      q.uid = "0xz" ∧ q.revoked = true := by
  have h := c4_revocation_monotone
    [ReconcileStep.push ["0xz"], ReconcileStep.pull "sepolia" ["0xz"]]
    [plainProof "0xz" "sepolia" true] "0xz"
    (by intro q hq _; simp only [List.mem_singleton] at hq; subst hq; rfl)
  have hres : applyReconcileSeq [plainProof "0xz" "sepolia" true]
      [ReconcileStep.push ["0xz"], ReconcileStep.pull "sepolia" ["0xz"]] =
      [plainProof "0xz" "sepolia" true] := by
    with_unfolding_all rfl
  refine ⟨plainProof "0xz" "sepolia" true, ?_, rfl, ?_⟩
  · rw [hres]; simp
  · exact h _ (by rw [hres]; simp) rfl

/-- A `false` result of the `Math.abs(v) > b` test bounds the magnitude
of a numeric value. -/
theorem qAbs_le_of_mathAbsGt_false (q b : ℚ) (h : mathAbsGt (Json.num q) b = false) :
    qAbs q ≤ b := by
  simp only [mathAbsGt, jsToNumber, decide_eq_false_iff_not] at h
  exact le_of_not_lt h

/-- Shape of the GeoJSON range validation: either both coordinates are
cleared, or both are kept unchanged, in which case any numeric value is
within its range. -/
theorem validateGeo_shape (lon lat : Json) :
    validateGeo lon lat = (none, none) ∨
      (validateGeo lon lat = (some lon, some lat) ∧
        (∀ q : ℚ, lon = Json.num q → qAbs q ≤ 180) ∧
        (∀ q : ℚ, lat = Json.num q → qAbs q ≤ 90)) := by
  unfold validateGeo
  cases h : (!lat.truthy || !lon.truthy || mathAbsGt lat 90 || mathAbsGt lon 180) with
  | true => left; simp [h]
  | false =>
    right
    simp only [Bool.or_eq_false_iff] at h
    refine ⟨by simp, ?_, ?_⟩
    · intro q hq; subst hq
      exact qAbs_le_of_mathAbsGt_false q 180 h.2
    · intro q hq; subst hq
      exact qAbs_le_of_mathAbsGt_false q 90 h.1.2

/-- Shape of the simple-coordinate fallback: both coordinates undefined,
or both defined as in-range numbers. -/
theorem fallbackCoords_shape (s : String) :
    fallbackCoords s = (none, none) ∨
      ∃ qlon qlat : ℚ, fallbackCoords s = (some (Json.num qlon), some (Json.num qlat)) ∧
        qAbs qlon ≤ 180 ∧ qAbs qlat ≤ 90 := by
  unfold fallbackCoords
  split
  · split
    · split
      · rename_i v1 v2 _ _
        by_cases h1 : (decide (qAbs v1 ≤ 90) && decide (qAbs v2 ≤ 180)) = true
        · rw [if_pos h1]
          simp only [Bool.and_eq_true, decide_eq_true_eq] at h1
          exact Or.inr ⟨v2, v1, rfl, h1.2, h1.1⟩
        · rw [if_neg h1]
          by_cases h2 : (decide (qAbs v2 ≤ 90) && decide (qAbs v1 ≤ 180)) = true
          · rw [if_pos h2]
            simp only [Bool.and_eq_true, decide_eq_true_eq] at h2
            exact Or.inr ⟨v1, v2, rfl, h2.2, h2.1⟩
          · rw [if_neg h2]; exact Or.inl rfl
      · exact Or.inl rfl
    · exact Or.inl rfl
  · exact Or.inl rfl

/-- The fallback shape, phrased over raw JSON values. -/
theorem fallbackCoords_shape' (s : String) :
    fallbackCoords s = (none, none) ∨
      ∃ jlon jlat, fallbackCoords s = (some jlon, some jlat) ∧
        (∀ q : ℚ, jlon = Json.num q → qAbs q ≤ 180) ∧
        (∀ q : ℚ, jlat = Json.num q → qAbs q ≤ 90) := by
  rcases fallbackCoords_shape s with h | ⟨qlon, qlat, h, h1, h2⟩
  · exact Or.inl h
  · right
    exact ⟨Json.num qlon, Json.num qlat, h,
      fun q hq => by injection hq with h'; exact h' ▸ h1,
      fun q hq => by injection hq with h'; exact h' ▸ h2⟩

/-- Shape of the full geometry normalizer: the stored longitude/latitude
are both undefined or both defined, and a defined numeric coordinate is
always within its range. -/
theorem parseCoordinates_shape (s : String) :
    parseCoordinates s = (none, none) ∨
      ∃ jlon jlat, parseCoordinates s = (some jlon, some jlat) ∧
        (∀ q : ℚ, jlon = Json.num q → qAbs q ≤ 180) ∧
        (∀ q : ℚ, jlat = Json.num q → qAbs q ≤ 90) := by
  by_cases hs : s = ""
  · simpa [parseCoordinates, hs] using fallbackCoords_shape' s
  · rcases hg : geoCoords s with _ | ⟨lon, lat⟩
    · simpa [parseCoordinates, hs, hg] using fallbackCoords_shape' s
    · rcases validateGeo_shape lon lat with hv | ⟨hv, hlon, hlat⟩
      · simpa [parseCoordinates, hs, hg, hv] using fallbackCoords_shape' s
      · right
        exact ⟨lon, lat, by simp [parseCoordinates, hs, hg, hv], hlon, hlat⟩

/-- C8 counterexample: the attestation whose GeoJSON coordinates are the
strings `"a"`, `"b"` converts successfully and stores them as defined,
non-numeric longitude/latitude — `Math.abs` of a string is `NaN`, every
`NaN` comparison is `false`, and the range validation passes. So it is
not the case that every stored proof has its coordinates either both
undefined or both defined as in-range numbers. -/
theorem c8_counterexample :
    ¬ ∀ (att : EASAttestation) (chain : String) (proof : LocationProof),
        convertAttestation att chain = Except.ok proof →
        (proof.longitude = none ∧ proof.latitude = none) ∨
        ∃ qlon qlat : ℚ, proof.longitude = some (Json.num qlon) ∧
          proof.latitude = some (Json.num qlat) ∧ qAbs qlat ≤ 90 ∧ qAbs qlon ≤ 180 := by
  intro hclaim
  have heval : (convertAttestation strCoordAtt "sepolia").toOption.map
      (fun p => (p.longitude, p.latitude)) =
        some (some (Json.str "a"), some (Json.str "b")) := by
    with_unfolding_all rfl
  rcases hE : convertAttestation strCoordAtt "sepolia" with e | proof
  · rw [hE] at heval; simp [Except.toOption] at heval
  · rw [hE] at heval
    simp [Except.toOption, Prod.ext_iff] at heval
    rcases hclaim strCoordAtt "sepolia" proof hE with ⟨h1, _⟩ | ⟨qlon, qlat, h1, _, _, _⟩
    · rw [heval.1] at h1; exact Option.noConfusion h1
    · rw [heval.1] at h1
      exact Json.noConfusion (Option.some.inj h1)

/-- C8 amended: for every attestation converted to a stored proof, the
longitude and latitude are either both undefined or both defined, and any
defined coordinate that is a number is within range (`|lat| ≤ 90`,
`|lon| ≤ 180`); however, a defined coordinate need not be a number — a
non-numeric GeoJSON coordinate value (such as a string) passes the
`Math.abs`-based validation, because `NaN` comparisons are `false`, and
is stored as-is. -/
theorem c8_amended (att : EASAttestation) (chain : String) (proof : LocationProof)
    (h : convertAttestation att chain = Except.ok proof) :
    (proof.longitude = none ∧ proof.latitude = none) ∨
      ∃ jlon jlat, proof.longitude = some jlon ∧ proof.latitude = some jlat ∧
        (∀ q : ℚ, jlon = Json.num q → qAbs q ≤ 180) ∧
        (∀ q : ℚ, jlat = Json.num q → qAbs q ≤ 90) := by
  obtain ⟨f, _, hb⟩ := except_map_ok (buildProof att chain) _ proof h
  subst hb
  have hlon : (buildProof att chain f).longitude = (parseCoordinates f.location).1 := rfl
  have hlat : (buildProof att chain f).latitude = (parseCoordinates f.location).2 := rfl
  rcases parseCoordinates_shape f.location with hp | ⟨jlon, jlat, hp, h1, h2⟩
  · left; rw [hlon, hlat, hp]; exact ⟨rfl, rfl⟩
  · right; exact ⟨jlon, jlat, by rw [hlon, hp], by rw [hlat, hp], h1, h2⟩

/-- C8 amended witness: the string-coordinate attestation satisfies the
amended invariant (both defined, vacuously in range as non-numbers). -/
theorem c8_witness :
    ∃ proof, convertAttestation strCoordAtt "sepolia" = Except.ok proof ∧
      ((proof.longitude = none ∧ proof.latitude = none) ∨
        ∃ jlon jlat, proof.longitude = some jlon ∧ proof.latitude = some jlat ∧
          (∀ q : ℚ, jlon = Json.num q → qAbs q ≤ 180) ∧
          (∀ q : ℚ, jlat = Json.num q → qAbs q ≤ 90)) := by
  have hconv : convertAttestation strCoordAtt "sepolia" =
      Except.ok (buildProof strCoordAtt "sepolia"
        { defaultFields with
          location := "\x7b\"type\":\"Point\",\"coordinates\":[\"a\",\"b\"]\x7d" }) := by
    with_unfolding_all rfl
  exact ⟨_, hconv, c8_amended strCoordAtt "sepolia" _ hconv⟩

/-! ### Structure of a successful object parse

These lemmas support C7: when the raw location is a JSON object (any
recognized GeoJSON shape), the character before which the parser found
the object is an opening brace after only whitespace, so the
simple-coordinate fallback can never read a number out of it. -/

/-- `skipWs` removes a whitespace prefix. -/
theorem skipWs_decomp (cs : List Char) :
    ∃ ws, cs = ws ++ skipWs cs ∧ ∀ c ∈ ws, isWsChar c = true := by
  induction cs with
  | nil => exact ⟨[], rfl, by simp⟩
  | cons c cs ih =>
    by_cases h : isWsChar c
    · obtain ⟨ws, hw, hall⟩ := ih
      refine ⟨c :: ws, ?_, ?_⟩
      · simp only [skipWs, h, if_true, List.cons_append]
        exact congrArg (c :: ·) hw
      · intro x hx
        rcases List.mem_cons.mp hx with rfl | hx
        · exact h
        · exact hall x hx
    · refine ⟨[], ?_, by simp⟩
      simp [skipWs, h]

/-- A successful `parseElems` always yields an array value. -/
theorem parseElems_shape (fuel : ℕ) :
    ∀ (cs : List Char) (ae : Bool) (acc : List Json) (j : Json) (r : List Char),
      parseElems fuel cs ae acc = some (j, r) → ∃ es, j = Json.arr es := by
  induction fuel with
  | zero => intro cs ae acc j r h; simp [parseElems] at h
  | succ fuel ih =>
    intro cs ae acc j r h
    rw [parseElems] at h
    split at h
    · split at h
      · simp only [Option.some.injEq, Prod.mk.injEq] at h
        exact ⟨_, h.1.symm⟩
      · exact absurd h (by simp)
    · split at h
      · exact absurd h (by simp)
      · split at h
        · exact ih _ _ _ _ _ h
        · simp only [Option.some.injEq, Prod.mk.injEq] at h
          exact ⟨_, h.1.symm⟩
        · exact absurd h (by simp)

/-- A `parseValue` success that returns an object consumed an opening
brace after leading whitespace. -/
theorem parseValue_obj (fuel : ℕ) (cs : List Char) (f : List (String × Json))
    (r : List Char) (h : parseValue fuel cs = some (Json.obj f, r)) :
    ∃ ws t, cs = ws ++ '{' :: t ∧ ∀ c ∈ ws, isWsChar c = true := by
  cases fuel with
  | zero => simp [parseValue] at h
  | succ fuel =>
    rw [parseValue] at h
    obtain ⟨ws, hws, hall⟩ := skipWs_decomp cs
    split at h
    · exact absurd h (by simp)
    · rename_i c r' heq
      by_cases h1 : c = '{'
      · exact ⟨ws, r', by rw [hws, heq, h1], hall⟩
      · rw [if_neg h1] at h
        by_cases h2 : c = '['
        · rw [if_pos h2] at h
          obtain ⟨es, hes⟩ := parseElems_shape fuel r' true [] _ _ h
          exact absurd hes (by simp)
        · rw [if_neg h2] at h
          by_cases h3 : c = '"'
          · rw [if_pos h3] at h
            cases hps : parseStrBody r' <;> simp [hps] at h
          · rw [if_neg h3] at h
            by_cases h4 : c = '-'
            · rw [if_pos h4] at h
              cases hpn : parseNumBody r' <;> simp [hpn] at h
            · rw [if_neg h4] at h
              by_cases h5 : c = 't'
              · rw [if_pos h5] at h
                split at h <;> simp at h
              · rw [if_neg h5] at h
                by_cases h6 : c = 'f'
                · rw [if_pos h6] at h
                  split at h <;> simp at h
                · rw [if_neg h6] at h
                  by_cases h7 : c = 'n'
                  · rw [if_pos h7] at h
                    split at h <;> simp at h
                  · rw [if_neg h7] at h
                    cases hpn : parseNumBody (c :: r') <;> simp [hpn] at h

/-- `JSON.parse` returning an object means the input is an opening brace
after only leading whitespace. -/
theorem jsonParse_obj (s : String) (f : List (String × Json))
    (h : jsonParse s = some (Json.obj f)) :
    ∃ ws t, s.data = ws ++ '{' :: t ∧ ∀ c ∈ ws, isWsChar c = true := by
  unfold jsonParse at h
  split at h
  · rename_i j p heq
    split at h
    · simp only [Option.some.injEq] at h
      exact parseValue_obj _ _ f p (h ▸ heq)
    · exact absurd h (by simp)
  · exact absurd h (by simp)

/-- A branch determination can only succeed on an object. -/
theorem determineCoords_obj (p : Json) (pr : Json × Json)
    (h : determineCoords p = some pr) : ∃ fs, p = Json.obj fs := by
  cases p with
  | obj fs => exact ⟨fs, rfl⟩
  | null => simp [determineCoords, Json.lookup, truthyOpt, isFeatureTyped] at h
  | bool b => simp [determineCoords, Json.lookup, truthyOpt, isFeatureTyped] at h
  | num q => simp [determineCoords, Json.lookup, truthyOpt, isFeatureTyped] at h
  | str s => simp [determineCoords, Json.lookup, truthyOpt, isFeatureTyped] at h
  | arr es => simp [determineCoords, Json.lookup, truthyOpt, isFeatureTyped] at h

/-- `split(",")` never returns an empty list of pieces. -/
theorem splitOnComma_ne_nil (cs : List Char) : splitOnComma cs ≠ [] := by
  induction cs with
  | nil => simp [splitOnComma]
  | cons c cs ih =>
    by_cases h : c = ','
    · simp [splitOnComma, h]
    · simp only [splitOnComma, if_neg h]
      rcases hs : splitOnComma cs with _ | ⟨t, ts⟩
      · exact absurd hs ih
      · simp

/-- A whitespace character is not a comma. -/
theorem isWsChar_ne_comma (c : Char) (h : isWsChar c = true) : c ≠ ',' := by
  simp only [isWsChar, Bool.or_eq_true, decide_eq_true_eq] at h
  rcases h with ⟨⟨rfl | rfl⟩ | rfl⟩ | rfl <;> decide

/-- Splitting a whitespace-then-brace input on commas leaves the brace at
the head of the first piece. -/
theorem splitOnComma_ws_brace (ws : List Char) (t : List Char)
    (hall : ∀ c ∈ ws, isWsChar c = true) :
    ∃ p1Tail rest, splitOnComma (ws ++ '{' :: t) = (ws ++ '{' :: p1Tail) :: rest := by
  induction ws with
  | nil =>
    simp only [List.nil_append]
    have hnc : ('{' : Char) ≠ ',' := by decide
    simp only [splitOnComma, if_neg hnc]
    rcases hs : splitOnComma t with _ | ⟨t', ts'⟩
    · exact absurd hs (splitOnComma_ne_nil t)
    · exact ⟨t', ts', rfl⟩
  | cons w ws ih =>
    have hw : isWsChar w = true := hall w (by simp)
    have hnc : w ≠ ',' := isWsChar_ne_comma w hw
    obtain ⟨p1Tail, rest, hr⟩ := ih (fun c hc => hall c (by simp [hc]))
    refine ⟨p1Tail, rest, ?_⟩
    simp only [List.cons_append, splitOnComma, if_neg hnc, List.append_eq, hr]

/-- Dropping leading whitespace from a whitespace-then-nonwhitespace list
stops at the first non-whitespace character. -/
theorem dropWhile_ws_all (ws : List Char) (x : Char) (t : List Char)
    (hall : ∀ c ∈ ws, isWsChar c = true) (hx : isWsChar x = false) :
    (ws ++ x :: t).dropWhile isWsChar = x :: t := by
  induction ws with
  | nil => simp [List.dropWhile_cons, hx]
  | cons w ws ih =>
    have hw : isWsChar w = true := hall w (by simp)
    simp only [List.cons_append, List.dropWhile_cons, hw, if_true]
    exact ih (fun c hc => hall c (by simp [hc]))

/-- Trimming cannot remove an opening brace at the head. -/
theorem dropTrailingWs_brace (t : List Char) :
    ∃ u, dropTrailingWs ('{' :: t) = '{' :: u := by
  have hb : isWsChar '{' = false := by decide
  rw [dropTrailingWs]
  rcases h : dropTrailingWs t with _ | ⟨c, r⟩
  · exact ⟨[], by simp [hb]⟩
  · exact ⟨c :: r, rfl⟩

/-- `parseFloat` of anything whose first non-whitespace character is an
opening brace is `NaN`. -/
theorem jsParseFloat_brace (cs : List Char) (t : List Char)
    (h : cs.dropWhile isWsChar = '{' :: t) : jsParseFloat cs = none := by
  have hd : isDigitChar '{' = false := by decide
  have h1 : ¬('{' : Char) = '-' := by decide
  have h2 : ¬('{' : Char) = '+' := by decide
  have h3 : ¬('{' : Char) = '.' := by decide
  simp only [jsParseFloat, h]
  simp [spanDigits, hd, h1, h2, h3]

/-- C7: for every GeoJSON input whose extracted first coordinate pair has
latitude `0` or longitude `0` (equator / prime meridian), the step-2
non-falsy validation rejects the pair — `0` is falsy — and, because a
string that parses as a JSON object can never yield a float in the
two-token fallback (its first token starts with `{` after whitespace),
normalization produces none: the proof is stored with both longitude and
latitude undefined. -/
theorem c7_zero_coordinate (s : String) (lonJ latJ : Json)
    (hgeo : geoCoords s = some (lonJ, latJ))
    (hzero : lonJ = Json.num 0 ∨ latJ = Json.num 0) :
    parseCoordinates s = (none, none) := by
  have hparse : ∃ p, jsonParse s = some p ∧ determineCoords p = some (lonJ, latJ) := by
    unfold geoCoords at hgeo
    rcases hj : jsonParse s with _ | p
    · rw [hj] at hgeo; exact absurd hgeo (by simp)
    · rw [hj] at hgeo; exact ⟨p, rfl, hgeo⟩
  obtain ⟨p, hj, hd⟩ := hparse
  obtain ⟨fs, rfl⟩ := determineCoords_obj p _ hd
  obtain ⟨ws, t, hsd, hall⟩ := jsonParse_obj s fs hj
  have hne : s ≠ "" := by
    intro h0
    rw [h0] at hsd
    have hnil : ([] : List Char) = ws ++ '{' :: t := hsd
    exact absurd hnil.symm (by simp)
  have hval : validateGeo lonJ latJ = (none, none) := by
    rcases hzero with rfl | rfl
    · simp [validateGeo, Json.truthy]
    · simp [validateGeo, Json.truthy]
  have hfb : fallbackCoords s = (none, none) := by
    by_cases hc : ',' ∈ s.data
    · obtain ⟨p1Tail, rest, hsplit⟩ := splitOnComma_ws_brace ws t hall
      have hsplit' : splitOnComma s.data = (ws ++ '{' :: p1Tail) :: rest := by
        rw [hsd]; exact hsplit
      have hpf : jsParseFloat (trimChars (ws ++ '{' :: p1Tail)) = none := by
        have hdw : (ws ++ '{' :: p1Tail).dropWhile isWsChar = '{' :: p1Tail :=
          dropWhile_ws_all ws '{' p1Tail hall (by decide)
        obtain ⟨u, hu⟩ := dropTrailingWs_brace p1Tail
        have htr : trimChars (ws ++ '{' :: p1Tail) = '{' :: u := by
          rw [trimChars, hdw, hu]
        refine jsParseFloat_brace _ u ?_
        rw [htr, List.dropWhile_cons]
        simp [(by decide : isWsChar '{' = false)]
      unfold fallbackCoords
      rw [hsplit']
      rcases rest with _ | ⟨p2, rest2⟩
      · simp [hne, hc]
      · rcases rest2 with _ | ⟨p3, rest3⟩
        · simp [hne, hc, hpf]
        · simp [hne, hc]
    · simp [fallbackCoords, hc]
  simp [parseCoordinates, hne, hgeo, hval, hfb]

/-- C7 witness: the equator point `[10, 0]` is extracted, rejected by the
falsy check, and the proof keeps no coordinates. -/
theorem c7_witness :
    geoCoords "\x7b\"type\":\"Point\",\"coordinates\":[10,0]\x7d" =
        some (Json.num 10, Json.num 0) ∧
      parseCoordinates "\x7b\"type\":\"Point\",\"coordinates\":[10,0]\x7d" = (none, none) :=
  ⟨by with_unfolding_all rfl,
    c7_zero_coordinate _ (Json.num 10) (Json.num 0) (by with_unfolding_all rfl) (Or.inr rfl)⟩

/-! ### Idempotence of a second pass (C2) -/

/-- Insertion keeps exactly the old elements plus the new one. -/
theorem mem_insertByTime (a x : EASAttestation) (rows : List EASAttestation) :
    x ∈ insertByTime a rows ↔ x = a ∨ x ∈ rows := by
  induction rows with
  | nil => simp [insertByTime]
  | cons b bs ih =>
    by_cases h : a.timeCreated < b.timeCreated
    · simp [insertByTime, h]
    · simp only [insertByTime, if_neg h, List.mem_cons, ih]
      tauto

/-- Sorting keeps exactly the source records. -/
theorem mem_sortByTime (x : EASAttestation) (l : List EASAttestation) :
    x ∈ sortByTime l ↔ x ∈ l := by
  induction l with
  | nil => simp [sortByTime]
  | cons b bs ih =>
    simp only [sortByTime, List.foldr_cons] at *
    rw [mem_insertByTime, ih, List.mem_cons]

/-- A take that came back short took everything. -/
theorem take_eq_of_length_lt {α : Type} (l : List α) (n : ℕ)
    (h : (l.take n).length < n) : l.take n = l := by
  apply List.take_of_length_le
  rw [List.length_take] at h
  omega

/-- Membership in a fetched window. -/
theorem mem_fetchWindow (source : List EASAttestation) (since : ℤ) (limit : ℕ)
    (a : EASAttestation) (ha : a ∈ fetchWindow source since limit) :
    a ∈ source ∧ since < a.timeCreated := by
  unfold fetchWindow at ha
  have h1 := List.mem_of_mem_take ha
  have h2 := List.mem_filter.mp h1
  exact ⟨(mem_sortByTime _ _).mp h2.1, by simpa using h2.2⟩

/-- A window below the limit is the whole filtered source. -/
theorem fetchWindow_full (source : List EASAttestation) (since : ℤ) (limit : ℕ)
    (h : (fetchWindow source since limit).length < limit) :
    fetchWindow source since limit =
      (sortByTime source).filter (fun a => decide (since < a.timeCreated)) := by
  unfold fetchWindow at *
  exact take_eq_of_length_lt _ _ h

/-- Every source record past the watermark appears in a short window. -/
theorem mem_fetchWindow_full (source : List EASAttestation) (since : ℤ) (limit : ℕ)
    (a : EASAttestation) (h : (fetchWindow source since limit).length < limit)
    (ha : a ∈ source) (hts : since < a.timeCreated) :
    a ∈ fetchWindow source since limit := by
  rw [fetchWindow_full source since limit h]
  exact List.mem_filter.mpr ⟨(mem_sortByTime _ _).mpr ha, by simpa⟩

/-- One loop step only appends to the table. -/
theorem processRecord_db (chain : String) (acc : ℕ × List LocationProof)
    (a : EASAttestation) : ∃ t0, (processRecord chain acc a).2 = acc.2 ++ t0 := by
  unfold processRecord
  by_cases he : proofExists acc.2 a.id
  · exact ⟨[], by simp [he]⟩
  · rcases hc : convertAttestation a chain with e | proof
    · exact ⟨[], by simp [he, hc]⟩
    · exact ⟨[proof], by simp [he, hc]⟩

/-- The whole loop only appends to the table. -/
theorem processFold_db_prefix (chain : String) (batch : List EASAttestation) :
    ∀ acc : ℕ × List LocationProof,
      ∃ tail, (batch.foldl (processRecord chain) acc).2 = acc.2 ++ tail := by
  induction batch with
  | nil => exact fun acc => ⟨[], by simp⟩
  | cons a batch ih =>
    intro acc
    rw [List.foldl_cons]
    obtain ⟨t1, h1⟩ := processRecord_db chain acc a
    obtain ⟨t2, h2⟩ := ih (processRecord chain acc a)
    exact ⟨t1 ++ t2, by rw [h2, h1, List.append_assoc]⟩

/-- Existence checks survive table growth. -/
theorem proofExists_append (db tail : List LocationProof) (uid : String)
    (h : proofExists db uid = true) : proofExists (db ++ tail) uid = true := by
  simp only [proofExists, List.any_append]
  simp only [proofExists] at h
  simp [h]

/-- A successfully converted proof carries the attestation's id. -/
theorem convert_ok_uid (att : EASAttestation) (chain : String) (proof : LocationProof)
    (h : convertAttestation att chain = Except.ok proof) : proof.uid = att.id := by
  obtain ⟨f, _, hb⟩ := except_map_ok _ _ _ h
  subst hb; rfl

/-- After the loop, every batch record either exists in the table or
fails conversion deterministically. -/
theorem processFold_covers (chain : String) (batch : List EASAttestation) :
    ∀ acc : ℕ × List LocationProof, ∀ r ∈ batch,
      proofExists (batch.foldl (processRecord chain) acc).2 r.id = true ∨
        convertAttestation r chain = Except.error () := by
  induction batch with
  | nil => intro acc r hr; cases hr
  | cons a batch ih =>
    intro acc r hr
    rw [List.foldl_cons]
    rcases List.mem_cons.mp hr with rfl | hr
    · by_cases he : proofExists acc.2 r.id
      · left
        obtain ⟨t1, h1⟩ := processRecord_db chain acc r
        obtain ⟨t2, h2⟩ := processFold_db_prefix chain batch (processRecord chain acc r)
        rw [h2, h1]
        exact proofExists_append _ _ _ (proofExists_append _ _ _ he)
      · rcases hc : convertAttestation r chain with e | proof
        · right; cases e; rfl
        · left
          have hstep : (processRecord chain acc r).2 = acc.2 ++ [proof] := by
            simp [processRecord, he, hc]
          obtain ⟨t2, h2⟩ := processFold_db_prefix chain batch (processRecord chain acc r)
          rw [h2, hstep]
          apply proofExists_append
          simp [proofExists, convert_ok_uid r chain proof hc]
    · exact ih (processRecord chain acc a) r hr

/-- A batch of already-covered records is a no-op for count and table. -/
theorem processFold_noop (chain : String) (batch : List EASAttestation) :
    ∀ (c : ℕ) (db : List LocationProof),
      (∀ r ∈ batch, proofExists db r.id = true ∨ convertAttestation r chain = Except.error ()) →
      batch.foldl (processRecord chain) (c, db) = (c, db) := by
  induction batch with
  | nil => intro c db _; rfl
  | cons a batch ih =>
    intro c db hall
    rw [List.foldl_cons]
    have hstep : processRecord chain (c, db) a = (c, db) := by
      rcases hall a (by simp) with he | hc
      · simp [processRecord, he]
      · by_cases he : proofExists db a.id
        · simp [processRecord, he]
        · simp [processRecord, he, hc]
    rw [hstep]
    exact ih c db (fun r hr => hall r (by simp [hr]))

/-- The running maximum never drops below its seed. -/
theorem foldl_timeMax_ge_init (rest : List EASAttestation) :
    ∀ m : ℤ, m ≤ rest.foldl (fun m b => if m ≤ b.timeCreated then b.timeCreated else m) m := by
  induction rest with
  | nil => simp
  | cons b rest ih =>
    intro m
    rw [List.foldl_cons]
    by_cases h : m ≤ b.timeCreated
    · exact le_trans h (by simpa [if_pos h] using ih b.timeCreated)
    · simpa [if_neg h] using ih m

/-- The running maximum dominates every element. -/
theorem foldl_timeMax_ge_mem (rest : List EASAttestation) :
    ∀ (m : ℤ) (a : EASAttestation), a ∈ rest →
      a.timeCreated ≤ rest.foldl (fun m b => if m ≤ b.timeCreated then b.timeCreated else m) m := by
  induction rest with
  | nil => intro m a ha; cases ha
  | cons b rest ih =>
    intro m a ha
    rcases List.mem_cons.mp ha with rfl | ha
    · rw [List.foldl_cons]
      by_cases h : m ≤ a.timeCreated
      · simpa [if_pos h] using foldl_timeMax_ge_init rest a.timeCreated
      · have h1 : a.timeCreated ≤ m := le_of_not_le h
        exact le_trans h1 (by simpa [if_neg h] using foldl_timeMax_ge_init rest m)
    · rw [List.foldl_cons]
      exact ih _ a ha

/-- The watermark dominates the whole batch. -/
theorem le_maxTimeCreated (batch : List EASAttestation) (a : EASAttestation)
    (ha : a ∈ batch) : a.timeCreated ≤ maxTimeCreated batch := by
  cases batch with
  | nil => cases ha
  | cons b bs =>
    rcases List.mem_cons.mp ha with rfl | ha
    · exact foldl_timeMax_ge_init bs a.timeCreated
    · exact foldl_timeMax_ge_mem bs b.timeCreated a ha

/-- The transmitted watermark never exceeds the 32-bit cap. -/
theorem transmittedSince_le (cp : Option ℤ) (d : ℤ) :
    transmittedSince cp d ≤ MAX_INT32 := by
  simp only [transmittedSince, checkpointTimestamp, safeTimestamp, jsMin, MAX_INT32]
  split_ifs <;> omega

/-- A nonzero stored watermark is transmitted clamped only. -/
theorem transmittedSince_some (M d : ℤ) (hM : M ≠ 0) :
    transmittedSince (some M) d = jsMin M MAX_INT32 := by
  simp only [transmittedSince, checkpointTimestamp, safeTimestamp, jsMin, MAX_INT32, if_neg hM]
  split_ifs <;> omega

/-- `processChain` on an empty window is a no-op returning 0. -/
theorem processChain_of_empty (source : List EASAttestation) (chain : String) (d : ℤ)
    (st : ChainState) (h : fetchWindow source (transmittedSince st.checkpoint d) 100 = []) :
    processChain source chain d st = (0, st) := by
  simp [processChain, h]

/-- `processChain` on a non-empty window: the loop result and the
batch-maximum watermark. -/
theorem processChain_of_ne (source : List EASAttestation) (chain : String) (d : ℤ)
    (st : ChainState) (h : fetchWindow source (transmittedSince st.checkpoint d) 100 ≠ []) :
    processChain source chain d st =
      (((fetchWindow source (transmittedSince st.checkpoint d) 100).foldl
          (processRecord chain) (0, st.db)).1,
        { checkpoint :=
            some (maxTimeCreated (fetchWindow source (transmittedSince st.checkpoint d) 100)),
          db := ((fetchWindow source (transmittedSince st.checkpoint d) 100).foldl
            (processRecord chain) (0, st.db)).2 }) := by
  rcases hB : fetchWindow source (transmittedSince st.checkpoint d) 100 with _ | ⟨b, bs⟩
  · exact absurd hB h
  · simp [processChain, hB]

/-- C2 amended: when the first call's fetched batch is below the
100-record window limit (so the window was not truncated) and all source
timestamps are positive (true of real chain data; a batch maximum of
exactly 0 would be falsy and fall back to the default watermark),
a second `processChain` call against unchanged source data stores no new
records and returns 0. -/
theorem processChain_covered (source : List EASAttestation) (chain : String) (d : ℤ)
    (M : ℤ) (db1 : List LocationProof) (hM : M ≠ 0)
    (hcov : ∀ r ∈ fetchWindow source (jsMin M MAX_INT32) 100,
      proofExists db1 r.id = true ∨ convertAttestation r chain = Except.error ()) :
    (processChain source chain d ⟨some M, db1⟩).1 = 0 ∧
      (processChain source chain d ⟨some M, db1⟩).2.db = db1 := by
  have hsince : transmittedSince (ChainState.mk (some M) db1).checkpoint d =
      jsMin M MAX_INT32 :=
    transmittedSince_some M d hM
  rcases hB2 : fetchWindow source (transmittedSince (ChainState.mk (some M) db1).checkpoint d)
      100 with _ | ⟨b2, bs2⟩
  · rw [processChain_of_empty _ _ _ _ hB2]
    exact ⟨rfl, rfl⟩
  · have hB2ne : fetchWindow source
        (transmittedSince (ChainState.mk (some M) db1).checkpoint d) 100 ≠ [] := by
      rw [hB2]; simp
    rw [processChain_of_ne source chain d _ hB2ne]
    have hnoop : (fetchWindow source
          (transmittedSince (ChainState.mk (some M) db1).checkpoint d) 100).foldl
        (processRecord chain) (0, (ChainState.mk (some M) db1).db) =
        (0, (ChainState.mk (some M) db1).db) :=
      processFold_noop chain _ 0 db1 (by rw [hsince]; exact hcov)
    rw [hnoop]
    exact ⟨rfl, rfl⟩

theorem c2_amended (source : List EASAttestation) (chain : String) (d : ℤ)
    (st : ChainState) (hpos : ∀ a ∈ source, 0 < a.timeCreated)
    (hlen : (fetchWindow source (transmittedSince st.checkpoint d) 100).length < 100) :
    (processChain source chain d (processChain source chain d st).2).1 = 0 ∧
      (processChain source chain d (processChain source chain d st).2).2.db =
        (processChain source chain d st).2.db := by
  rcases hB : fetchWindow source (transmittedSince st.checkpoint d) 100 with _ | ⟨b, bs⟩
  · have h1 : processChain source chain d st = (0, st) :=
      processChain_of_empty _ _ _ _ hB
    have h2 : processChain source chain d (0, st).2 = (0, st) :=
      processChain_of_empty _ _ _ _ hB
    rw [h1, h2]
    exact ⟨rfl, rfl⟩
  · have hBne : fetchWindow source (transmittedSince st.checkpoint d) 100 ≠ [] := by
      rw [hB]; simp
    have h1 := processChain_of_ne source chain d st hBne
    have hsnd : (processChain source chain d st).2 =
        ⟨some (maxTimeCreated (fetchWindow source (transmittedSince st.checkpoint d) 100)),
          ((fetchWindow source (transmittedSince st.checkpoint d) 100).foldl
            (processRecord chain) (0, st.db)).2⟩ :=
      congrArg Prod.snd h1
    have hbmem : b ∈ fetchWindow source (transmittedSince st.checkpoint d) 100 := by
      rw [hB]; simp
    have hbsrc := mem_fetchWindow source (transmittedSince st.checkpoint d) 100 b hbmem
    have hbM : b.timeCreated ≤
        maxTimeCreated (fetchWindow source (transmittedSince st.checkpoint d) 100) :=
      le_maxTimeCreated _ b hbmem
    have hMpos : 0 <
        maxTimeCreated (fetchWindow source (transmittedSince st.checkpoint d) 100) :=
      lt_of_lt_of_le (hpos b hbsrc.1) hbM
    have hcov : ∀ r ∈ fetchWindow source
        (jsMin (maxTimeCreated (fetchWindow source (transmittedSince st.checkpoint d) 100))
          MAX_INT32) 100,
        proofExists ((fetchWindow source (transmittedSince st.checkpoint d) 100).foldl
          (processRecord chain) (0, st.db)).2 r.id = true ∨
          convertAttestation r chain = Except.error () := by
      intro r hr
      obtain ⟨hrsrc, hrts⟩ := mem_fetchWindow _ _ _ r hr
      by_cases hMle : maxTimeCreated
          (fetchWindow source (transmittedSince st.checkpoint d) 100) ≤ MAX_INT32
      · exfalso
        have hts : maxTimeCreated (fetchWindow source (transmittedSince st.checkpoint d) 100) <
            r.timeCreated := by
          simpa [jsMin, hMle] using hrts
        by_cases hr1 : transmittedSince st.checkpoint d < r.timeCreated
        · have hrB := mem_fetchWindow_full source (transmittedSince st.checkpoint d) 100 r
            hlen hrsrc hr1
          exact absurd hts (not_lt.mpr (le_maxTimeCreated _ r hrB))
        · have hb1 := hbsrc.2
          omega
      · have hts : MAX_INT32 < r.timeCreated := by
          simpa [jsMin, hMle] using hrts
        have hle := transmittedSince_le st.checkpoint d
        have hr1 : transmittedSince st.checkpoint d < r.timeCreated := by omega
        have hrB := mem_fetchWindow_full source (transmittedSince st.checkpoint d) 100 r
          hlen hrsrc hr1
        exact processFold_covers chain
          (fetchWindow source (transmittedSince st.checkpoint d) 100) (0, st.db) r hrB
    have hcore := processChain_covered source chain d
      (maxTimeCreated (fetchWindow source (transmittedSince st.checkpoint d) 100))
      ((fetchWindow source (transmittedSince st.checkpoint d) 100).foldl
        (processRecord chain) (0, st.db)).2
      (by omega) hcov
    rw [hsnd]
    exact ⟨hcore.1, hcore.2⟩

set_option maxRecDepth 100000 in
/-- C2 counterexample: with 101 fresh records behind the checkpoint and
unchanged source data, the first call stores the 100-record window and
the second call stores the remaining record, returning 1, not 0. -/
theorem c2_counterexample :
    (processChain overfullSource "sepolia" 1690000000 emptyState).1 = 100 ∧
      (processChain overfullSource "sepolia" 1690000000
          (processChain overfullSource "sepolia" 1690000000 emptyState).2).1 = 1 ∧
      (1 : ℕ) ≠ 0 := by
  refine ⟨by with_unfolding_all rfl, by with_unfolding_all rfl, by decide⟩

/-- C2 amended witness: the 3-record scenario (window not truncated)
yields 0 on the second call. -/
theorem c2_witness :
    (∀ a ∈ scenSource, 0 < a.timeCreated) ∧
      (fetchWindow scenSource (transmittedSince scenState.checkpoint 1690000000) 100).length <
        100 ∧
      (processChain scenSource "sepolia" 1690000000
          (processChain scenSource "sepolia" 1690000000 scenState).2).1 = 0 := by
  have hpos : ∀ a ∈ scenSource, 0 < a.timeCreated := by
    intro a ha
    simp only [scenSource, List.mem_cons, List.not_mem_nil, or_false] at ha
    rcases ha with rfl | rfl | rfl <;> decide
  have hlen : (fetchWindow scenSource
      (transmittedSince scenState.checkpoint 1690000000) 100).length < 100 := by
    with_unfolding_all decide
  exact ⟨hpos, hlen, (c2_amended scenSource "sepolia" 1690000000 scenState hpos hlen).1⟩

end Astral
